import Mathlib

/-!
Verification of the request-authorization core of the datadog-mcp repository:
the path pattern matcher and the two-tier authorization policy of
`src/allowlist.ts`, and the policy gate inside `datadog.request` of
`src/executor.ts`.

The JavaScript string primitives the source uses (`split("/")`, `startsWith`,
`endsWith`, `toUpperCase`, `length`) are modelled as executable Lean functions
over the character list of a `String`.
-/

/-- Model of JavaScript `String.prototype.toUpperCase` on the ASCII range
(HTTP method strings are ASCII): uppercase every character. -/
def jsToUpper (s : String) : String := ⟨s.data.map Char.toUpper⟩

/-- Model of JavaScript `String.prototype.startsWith`. -/
def jsStartsWith (s pre : String) : Bool := pre.data.isPrefixOf s.data

/-- Model of JavaScript `String.prototype.endsWith`. -/
def jsEndsWith (s suf : String) : Bool := suf.data.isSuffixOf s.data

/-- Model of JavaScript `String.prototype.split` with a one-character
separator, on character lists: `split "" = [""]` and
`split "/a/b" = ["", "a", "b"]`, exactly as in JavaScript. -/
def jsSplitChars (sep : Char) : List Char → List (List Char)
  | [] => [[]]
  | c :: cs =>
    if c = sep then [] :: jsSplitChars sep cs
    else
      match jsSplitChars sep cs with
      | [] => [[c]]
      | seg :: rest => (c :: seg) :: rest

/-- `path.split("/")` from the source, as a list of segment strings. -/
def pathSegs (s : String) : List String := (jsSplitChars '/' s.data).map fun cs => ⟨cs⟩

/-- The string consisting of the single opening-brace character. -/
def openBrace : String := "\x7b"

/-- The string consisting of the single closing-brace character. -/
def closeBrace : String := "\x7d"

/-- An allowlisted write operation (`interface AllowlistEntry` in
`src/allowlist.ts`). -/
structure AllowlistEntry where
  method : String
  path : String
deriving DecidableEq

/-- `WRITE_ALLOWLIST` from `src/allowlist.ts`. -/
def WRITE_ALLOWLIST : List AllowlistEntry := [
  ⟨"POST", "/api/v1/notebooks"⟩,
  ⟨"PUT", "/api/v1/notebooks/{notebook_id}"⟩,
  ⟨"DELETE", "/api/v1/notebooks/{notebook_id}"⟩,
  ⟨"POST", "/api/v1/dashboard"⟩,
  ⟨"PUT", "/api/v1/dashboard/{dashboard_id}"⟩,
  ⟨"DELETE", "/api/v1/dashboard/{dashboard_id}"⟩]

/-- `SAFE_POST_SUFFIXES` from `src/allowlist.ts`. -/
def SAFE_POST_SUFFIXES : List String :=
  ["/search", "/aggregate", "/analytics", "/query", "/estimate"]

/-- `READ_METHODS = new Set(["GET", "HEAD"])` from `src/allowlist.ts`. -/
def READ_METHODS : List String := ["GET", "HEAD"]

/-- `isSafePost` from `src/allowlist.ts`. -/
def isSafePost (method path : String) : Bool :=
  method == "POST" && SAFE_POST_SUFFIXES.any fun suffix => jsEndsWith path suffix

/-- Body of `isAllowedSpecEndpoint` from `src/allowlist.ts`, with the
allowlist table an explicit parameter (the source closes over the
`WRITE_ALLOWLIST` constant). -/
def isAllowedSpecEndpointWith (allowlist : List AllowlistEntry)
    (method path : String) : Bool :=
  let upper := jsToUpper method
  if READ_METHODS.contains upper then true
  else if isSafePost upper path then true
  else allowlist.any fun e => e.method == upper && e.path == path

/-- `isAllowedSpecEndpoint` from `src/allowlist.ts` (the catalog-time
policy, spec name `isAllowedAtCatalogTime`). -/
def isAllowedSpecEndpoint (method path : String) : Bool :=
  isAllowedSpecEndpointWith WRITE_ALLOWLIST method path

/-- The per-position test inside `matchPathPattern`'s `every` callback:
a segment wrapped in braces matches any non-empty concrete segment,
any other segment must be equal to the concrete one. -/
def segMatches (pat c : String) : Bool :=
  if jsStartsWith pat openBrace && jsEndsWith pat closeBrace then
    decide (0 < c.length)
  else pat == c

/-- `matchPathPattern` from `src/allowlist.ts`. -/
def matchPathPattern (pattern concrete : String) : Bool :=
  if (pathSegs pattern).length != (pathSegs concrete).length then false
  else ((pathSegs pattern).zip (pathSegs concrete)).all fun pc =>
    segMatches pc.1 pc.2

/-- Body of `isAllowedRuntimeRequest` from `src/allowlist.ts`, with the
allowlist table an explicit parameter. -/
def isAllowedRuntimeRequestWith (allowlist : List AllowlistEntry)
    (method path : String) : Bool :=
  let upper := jsToUpper method
  if READ_METHODS.contains upper then true
  else if isSafePost upper path then true
  else allowlist.any fun e => e.method == upper && matchPathPattern e.path path

/-- `isAllowedRuntimeRequest` from `src/allowlist.ts` (the runtime guard,
spec name `isAllowedAtRequestTime`). -/
def isAllowedRuntimeRequest (method path : String) : Bool :=
  isAllowedRuntimeRequestWith WRITE_ALLOWLIST method path

/-- `DatadogConfig` from `src/executor.ts`. -/
structure DatadogConfig where
  apiKey : String
  appKey : String
  site : String

/-- Observable outcome of `datadog.request` in `src/executor.ts`, up to the
policy gate: either the thrown `Blocked:` error (no URL constructed, no
network I/O performed), or a fetch dispatched to the constructed URL. -/
inductive RequestResult where
  | blocked (message : String)
  | fetched (url : String)
deriving DecidableEq

/-- The error message thrown on denial by `datadog.request` in
`src/executor.ts`. -/
def blockedMessage (method path : String) : String :=
  "Blocked: " ++ method ++ " " ++ path ++
    " is not in the write allowlist. Only GET/HEAD and specific notebook/dashboard operations are permitted."

/-- Control flow of `datadog.request` in `src/executor.ts` around the policy
gate: when `isAllowedRuntimeRequest` denies, throw before the URL is built
and before any I/O; otherwise construct the URL and reach `fetch`. -/
def datadogRequest (config : DatadogConfig) (method path : String) :
    RequestResult :=
  if !(isAllowedRuntimeRequest method path) then
    RequestResult.blocked (blockedMessage method path)
  else
    RequestResult.fetched ("https://api." ++ config.site ++ path)

/-- Substring test: some suffix of `s` has `sub` as a prefix. -/
def strContains (s sub : String) : Bool :=
  s.data.tails.any fun t => sub.data.isPrefixOf t

/-- Join path segments with slash separators (left inverse of splitting). -/
def joinSegsChars : List (List Char) → List Char
  | [] => []
  | [s] => s
  | s :: rest => s ++ '/' :: joinSegsChars rest

/-- A template segment of the form `{name}` is a parameter slot. -/
def isParamSeg (s : String) : Bool :=
  jsStartsWith s openBrace && jsEndsWith s closeBrace

/-- Modelled from the spec: `p` is a concrete path generated by substituting
parameter values into the template `t` — every parameter segment of `t` is
replaced by a non-empty, slash-free value and every literal segment is kept
verbatim. -/
def IsSubstInstance (t p : String) : Prop :=
  ∃ cs : List String,
    p.data = joinSegsChars (cs.map String.data) ∧
    cs.length = (pathSegs t).length ∧
    ∀ i (h1 : i < cs.length) (h2 : i < (pathSegs t).length),
      if isParamSeg ((pathSegs t).get ⟨i, h2⟩) then
        0 < (cs.get ⟨i, h1⟩).length ∧ '/' ∉ (cs.get ⟨i, h1⟩).data
      else cs.get ⟨i, h1⟩ = (pathSegs t).get ⟨i, h2⟩

theorem data_mk (l : List Char) : (String.mk l).data = l := rfl

theorem data_append (a b : String) : (a ++ b).data = a.data ++ b.data := by
  cases a
  cases b
  rfl

theorem toNat_charOfNat (n : Nat) (h : n.isValidChar) :
    (Char.ofNat n).toNat = n := by
  simp [Char.ofNat, Char.ofNatAux, h, Char.toNat, UInt32.toNat,
    BitVec.toNat_ofNatLt]

theorem charToUpper_idem (c : Char) : c.toUpper.toUpper = c.toUpper := by
  unfold Char.toUpper
  by_cases h : 97 ≤ c.toNat ∧ c.toNat ≤ 122
  · rw [if_pos h]
    have hv : (c.toNat - 32).isValidChar := by
      constructor
      omega
    rw [if_neg]
    rw [toNat_charOfNat _ hv]
    omega
  · rw [if_neg h, if_neg h]

theorem jsToUpper_idem (m : String) : jsToUpper (jsToUpper m) = jsToUpper m := by
  unfold jsToUpper
  rw [data_mk, List.map_map]
  congr 1
  exact List.map_congr_left fun c _ => charToUpper_idem c

theorem length_pos_of_startsWith_brace (a : String)
    (h : jsStartsWith a openBrace = true) : 0 < a.length := by
  unfold jsStartsWith openBrace at h
  match ha : a.data with
  | [] => rw [ha] at h; simp [List.isPrefixOf] at h
  | c :: cs => simp [String.length, ha]

theorem jsSplitChars_ne_nil (sep : Char) (l : List Char) :
    jsSplitChars sep l ≠ [] := by
  cases l with
  | nil => simp [jsSplitChars]
  | cons c cs =>
    unfold jsSplitChars
    by_cases h : c = sep
    · simp [h]
    · rw [if_neg h]
      cases jsSplitChars sep cs <;> simp

theorem not_mem_of_mem_jsSplitChars (sep : Char) (l : List Char)
    (s : List Char) (hs : s ∈ jsSplitChars sep l) : sep ∉ s := by
  induction l generalizing s with
  | nil =>
    simp [jsSplitChars] at hs
    simp [hs]
  | cons c cs ih =>
    unfold jsSplitChars at hs
    by_cases h : c = sep
    · rw [if_pos h] at hs
      rcases List.mem_cons.mp hs with h1 | h1
      · simp [h1]
      · exact ih s h1
    · rw [if_neg h] at hs
      match hsp : jsSplitChars sep cs with
      | [] => exact absurd hsp (jsSplitChars_ne_nil sep cs)
      | seg :: rest =>
        rw [hsp] at hs
        rcases List.mem_cons.mp hs with h1 | h1
        · subst h1
          intro hmem
          rcases List.mem_cons.mp hmem with h2 | h2
          · exact h h2.symm
          · exact ih seg (by rw [hsp]; exact List.mem_cons_self _ _) h2
        · exact ih s (by rw [hsp]; exact List.mem_cons_of_mem _ h1)

theorem joinSegsChars_jsSplitChars (l : List Char) :
    joinSegsChars (jsSplitChars '/' l) = l := by
  induction l with
  | nil => rfl
  | cons c cs ih =>
    unfold jsSplitChars
    by_cases h : c = '/'
    · rw [if_pos h]
      match hsp : jsSplitChars '/' cs with
      | [] => exact absurd hsp (jsSplitChars_ne_nil '/' cs)
      | seg :: rest =>
        rw [hsp] at ih
        simp [joinSegsChars, ih, h]
    · rw [if_neg h]
      match hsp : jsSplitChars '/' cs with
      | [] => exact absurd hsp (jsSplitChars_ne_nil '/' cs)
      | seg :: rest =>
        rw [hsp] at ih
        cases rest with
        | nil => simp [joinSegsChars] at ih ⊢; rw [ih]
        | cons r rs =>
          simp [joinSegsChars] at ih ⊢
          rw [ih]

theorem jsSplitChars_joinSegsChars (ls : List (List Char))
    (hne : ls ≠ []) (hfree : ∀ s ∈ ls, '/' ∉ s) :
    jsSplitChars '/' (joinSegsChars ls) = ls := by
  induction ls with
  | nil => exact absurd rfl hne
  | cons s rest ih =>
    cases rest with
    | nil =>
      have hs : '/' ∉ s := hfree s (List.mem_cons_self _ _)
      clear ih hne hfree
      induction s with
      | nil => rfl
      | cons c cs ihs =>
        have hc : c ≠ '/' := fun h => hs (h ▸ List.mem_cons_self _ _)
        have hcs : '/' ∉ cs := fun h => hs (List.mem_cons_of_mem _ h)
        simp only [joinSegsChars] at ihs ⊢
        unfold jsSplitChars
        rw [if_neg hc, ihs hcs]
    | cons s2 rest2 =>
      have hs : '/' ∉ s := hfree s (List.mem_cons_self _ _)
      have hrest : jsSplitChars '/' (joinSegsChars (s2 :: rest2)) = s2 :: rest2 :=
        ih (by simp) (fun x hx => hfree x (List.mem_cons_of_mem _ hx))
      have hjoin : joinSegsChars (s :: s2 :: rest2) = s ++ '/' :: joinSegsChars (s2 :: rest2) := rfl
      rw [hjoin]
      clear ih hne hfree hjoin
      induction s with
      | nil =>
        simp only [List.nil_append]
        unfold jsSplitChars
        rw [if_pos rfl, hrest]
      | cons c cs ihs =>
        have hc : c ≠ '/' := fun h => hs (h ▸ List.mem_cons_self _ _)
        have hcs : '/' ∉ cs := fun h => hs (List.mem_cons_of_mem _ h)
        simp only [List.cons_append]
        unfold jsSplitChars
        rw [if_neg hc, ihs hcs]

theorem zip_all_iff (f : String × String → Bool) :
    ∀ (ts cs : List String), ts.length = cs.length →
      (((ts.zip cs).all f) = true ↔
        ∀ i (h1 : i < ts.length) (h2 : i < cs.length),
          f (ts.get ⟨i, h1⟩, cs.get ⟨i, h2⟩) = true) := by
  intro ts
  induction ts with
  | nil =>
    intro cs hlen
    cases cs with
    | nil => simp
    | cons c cs => simp at hlen
  | cons t ts ih =>
    intro cs hlen
    cases cs with
    | nil => simp at hlen
    | cons c cs =>
      simp only [List.length_cons, Nat.succ.injEq] at hlen
      simp only [List.zip_cons_cons, List.all_cons, Bool.and_eq_true]
      rw [ih cs hlen]
      constructor
      · rintro ⟨hhead, htail⟩ i h1 h2
        cases i with
        | zero => exact hhead
        | succ j =>
          exact htail j (Nat.lt_of_succ_lt_succ h1) (Nat.lt_of_succ_lt_succ h2)
      · intro h
        refine ⟨h 0 (Nat.succ_pos _) (Nat.succ_pos _), fun j h1 h2 => ?_⟩
        exact h (j + 1) (Nat.succ_lt_succ h1) (Nat.succ_lt_succ h2)

theorem segMatches_iff (a b : String) :
    segMatches a b = true ↔
      ((jsStartsWith a openBrace = true ∧ jsEndsWith a closeBrace = true ∧
          0 < b.length) ∨ a = b) := by
  unfold segMatches
  by_cases h : (jsStartsWith a openBrace && jsEndsWith a closeBrace) = true
  · rw [if_pos h]
    rw [Bool.and_eq_true] at h
    simp only [decide_eq_true_eq]
    constructor
    · intro hb
      exact Or.inl ⟨h.1, h.2, hb⟩
    · rintro (⟨_, _, hb⟩ | heq)
      · exact hb
      · subst heq
        exact length_pos_of_startsWith_brace a h.1
  · rw [if_neg h]
    constructor
    · intro hb
      exact Or.inr (by simpa using hb)
    · rintro (⟨h1, h2, _⟩ | heq)
      · exact absurd (by simp [h1, h2]) h
      · rw [heq]
        simp

theorem matchPathPattern_true_iff (t c : String) :
    matchPathPattern t c = true ↔
      ((pathSegs t).length = (pathSegs c).length ∧
        ∀ i (h1 : i < (pathSegs t).length) (h2 : i < (pathSegs c).length),
          segMatches ((pathSegs t).get ⟨i, h1⟩) ((pathSegs c).get ⟨i, h2⟩) = true) := by
  unfold matchPathPattern
  by_cases hlen : (pathSegs t).length = (pathSegs c).length
  · rw [if_neg (by simp [hlen])]
    rw [zip_all_iff _ _ _ hlen]
    simp [hlen]
  · rw [if_pos (by simp [hlen])]
    simp [hlen]

theorem matchPathPattern_self (p : String) : matchPathPattern p p = true := by
  rw [matchPathPattern_true_iff]
  refine ⟨rfl, fun i h1 h2 => ?_⟩
  rw [segMatches_iff]
  exact Or.inr rfl

theorem if_if_eq_or (b1 b2 b3 : Bool) :
    (if b1 = true then true else if b2 = true then true else b3) =
      (b1 || b2 || b3) := by
  by_cases h1 : b1 = true
  · rw [if_pos h1, h1]
    simp
  · rw [if_neg h1]
    rw [Bool.not_eq_true] at h1
    rw [h1]
    by_cases h2 : b2 = true
    · rw [if_pos h2, h2]
      simp
    · rw [if_neg h2]
      rw [Bool.not_eq_true] at h2
      rw [h2]
      simp

theorem specWith_eq (al : List AllowlistEntry) (m p : String) :
    isAllowedSpecEndpointWith al m p =
      (READ_METHODS.contains (jsToUpper m) || isSafePost (jsToUpper m) p ||
        al.any fun e => e.method == jsToUpper m && e.path == p) := by
  unfold isAllowedSpecEndpointWith
  exact if_if_eq_or _ _ _

theorem runtimeWith_eq (al : List AllowlistEntry) (m p : String) :
    isAllowedRuntimeRequestWith al m p =
      (READ_METHODS.contains (jsToUpper m) || isSafePost (jsToUpper m) p ||
        al.any fun e => e.method == jsToUpper m && matchPathPattern e.path p) := by
  unfold isAllowedRuntimeRequestWith
  exact if_if_eq_or _ _ _

theorem read_contains_iff (u : String) :
    READ_METHODS.contains u = true ↔ (u = "GET" ∨ u = "HEAD") := by
  simp [READ_METHODS, List.contains]

theorem isSafePost_iff (u p : String) :
    isSafePost u p = true ↔
      (u = "POST" ∧ ∃ suf ∈ SAFE_POST_SUFFIXES, jsEndsWith p suf = true) := by
  unfold isSafePost
  simp [List.any_eq_true]

theorem mk_data (s : String) : String.mk s.data = s := by
  cases s
  rfl

theorem pathSegs_length_pos (s : String) : 0 < (pathSegs s).length := by
  unfold pathSegs
  rw [List.length_map]
  cases hsp : jsSplitChars '/' s.data with
  | nil => exact absurd hsp (jsSplitChars_ne_nil '/' s.data)
  | cons a l => simp

theorem map_data_pathSegs (s : String) :
    (pathSegs s).map String.data = jsSplitChars '/' s.data := by
  unfold pathSegs
  rw [List.map_map]
  have : (String.data ∘ fun cs => String.mk cs) = id := by
    funext cs
    simp [data_mk]
  rw [this, List.map_id]

theorem pathSegs_no_slash (s : String) (x : String) (hx : x ∈ pathSegs s) :
    '/' ∉ x.data := by
  unfold pathSegs at hx
  rcases List.mem_map.mp hx with ⟨cs, hcs, hmk⟩
  rw [← hmk, data_mk]
  exact not_mem_of_mem_jsSplitChars '/' s.data cs hcs

theorem isParamSeg_eq (s : String) :
    isParamSeg s = (jsStartsWith s openBrace && jsEndsWith s closeBrace) := rfl

theorem isSubstInstance_iff (t p : String) :
    IsSubstInstance t p ↔ matchPathPattern t p = true := by
  constructor
  · rintro ⟨cs, hjoin, hlen, hpt⟩
    have hcs_ne : cs ≠ [] := by
      intro h
      rw [h] at hlen
      exact absurd hlen.symm (Nat.ne_of_gt (pathSegs_length_pos t))
    have hfree : ∀ x ∈ cs.map String.data, '/' ∉ x := by
      intro x hx
      rcases List.mem_map.mp hx with ⟨c, hc, hdata⟩
      rcases List.mem_iff_get.mp hc with ⟨⟨i, hi⟩, hget⟩
      have hi2 : i < (pathSegs t).length := hlen ▸ hi
      have := hpt i hi hi2
      subst hdata
      subst hget
      by_cases hps : isParamSeg ((pathSegs t).get ⟨i, hi2⟩) = true
      · rw [if_pos hps] at this
        exact this.2
      · rw [if_neg hps] at this
        rw [this]
        exact pathSegs_no_slash t _ (List.get_mem _ _ _)
    have hsplit : pathSegs p = cs := by
      unfold pathSegs
      rw [hjoin, jsSplitChars_joinSegsChars (cs.map String.data)
        (by simpa using hcs_ne) hfree]
      rw [List.map_map]
      have : ((fun cs => String.mk cs) ∘ String.data) = id := by
        funext x
        simp [mk_data]
      rw [this, List.map_id]
    rw [matchPathPattern_true_iff, hsplit]
    refine ⟨hlen.symm, fun i h1 h2 => ?_⟩
    have := hpt i h2 h1
    rw [segMatches_iff]
    by_cases hps : isParamSeg ((pathSegs t).get ⟨i, h1⟩) = true
    · rw [if_pos hps] at this
      rw [isParamSeg_eq, Bool.and_eq_true] at hps
      exact Or.inl ⟨hps.1, hps.2, this.1⟩
    · rw [if_neg hps] at this
      exact Or.inr this.symm
  · intro hm
    rw [matchPathPattern_true_iff] at hm
    obtain ⟨hlen, hpt⟩ := hm
    refine ⟨pathSegs p, ?_, hlen.symm, fun i h1 h2 => ?_⟩
    · rw [map_data_pathSegs, joinSegsChars_jsSplitChars]
    · have hseg := hpt i h2 h1
      rw [segMatches_iff] at hseg
      by_cases hps : isParamSeg ((pathSegs t).get ⟨i, h2⟩) = true
      · rw [if_pos hps]
        have hnoslash : '/' ∉ ((pathSegs p).get ⟨i, h1⟩).data :=
          pathSegs_no_slash p _ (List.get_mem _ _ _)
        rcases hseg with ⟨_, _, hpos⟩ | heq
        · exact ⟨hpos, hnoslash⟩
        · refine ⟨?_, hnoslash⟩
          rw [isParamSeg_eq, Bool.and_eq_true] at hps
          rw [← heq]
          exact length_pos_of_startsWith_brace _ hps.1
      · rw [if_neg hps]
        rcases hseg with ⟨h1', h2', _⟩ | heq
        · exact absurd (by rw [isParamSeg_eq, h1', h2']; decide) hps
        · exact heq.symm

theorem segMatches_lit_iff (a b : String) (h : isParamSeg a = false) :
    segMatches a b = true ↔ a = b := by
  rw [segMatches_iff]
  constructor
  · rintro (⟨h1, h2, _⟩ | heq)
    · have : isParamSeg a = true := by rw [isParamSeg_eq, h1, h2]; decide
      rw [h] at this
      simp at this
    · exact heq
  · intro heq
    exact Or.inr heq

theorem matchPattern_len (t c : String) (h : matchPathPattern t c = true) :
    (pathSegs t).length = (pathSegs c).length :=
  ((matchPathPattern_true_iff t c).mp h).1

theorem matchPattern_seg (t c : String) (h : matchPathPattern t c = true)
    (i : Nat) (h1 : i < (pathSegs t).length) (h2 : i < (pathSegs c).length) :
    segMatches ((pathSegs t).get ⟨i, h1⟩) ((pathSegs c).get ⟨i, h2⟩) = true :=
  ((matchPathPattern_true_iff t c).mp h).2 i h1 h2

theorem matchPattern_false_of_len (t c : String)
    (h : (pathSegs t).length ≠ (pathSegs c).length) :
    matchPathPattern t c = false := by
  rw [← Bool.not_eq_true, matchPathPattern_true_iff]
  intro hc
  exact h hc.1

theorem matchPattern_false_of_seg (t c : String) (i : Nat)
    (h1 : i < (pathSegs t).length) (h2 : i < (pathSegs c).length)
    (h : segMatches ((pathSegs t).get ⟨i, h1⟩) ((pathSegs c).get ⟨i, h2⟩) = false) :
    matchPathPattern t c = false := by
  rw [← Bool.not_eq_true, matchPathPattern_true_iff]
  intro hc
  rw [hc.2 i h1 h2] at h
  simp at h

theorem any_congr_mem (l1 l2 : List AllowlistEntry)
    (h : ∀ e, e ∈ l1 ↔ e ∈ l2) (f : AllowlistEntry → Bool) :
    l1.any f = l2.any f := by
  cases h1 : l1.any f
  · cases h2 : l2.any f
    · rfl
    · rw [List.any_eq_true] at h2
      obtain ⟨e, he, hf⟩ := h2
      have : l1.any f = true := List.any_eq_true.mpr ⟨e, (h e).mpr he, hf⟩
      rw [h1] at this
      simp at this
  · rw [List.any_eq_true] at h1
    obtain ⟨e, he, hf⟩ := h1
    exact (List.any_eq_true.mpr ⟨e, (h e).mp he, hf⟩).symm

theorem safePost_of_ne_post (u p : String) (hu : u ≠ "POST") :
    isSafePost u p = false := by
  unfold isSafePost
  rw [show (u == "POST") = false from by rwa [beq_eq_false_iff_ne]]
  exact Bool.false_and _

theorem safePost_empty_path (u : String) : isSafePost u "" = false := by
  unfold isSafePost
  rw [show (SAFE_POST_SUFFIXES.any fun suffix => jsEndsWith "" suffix) = false
    from by decide]
  exact Bool.and_false _

theorem any_method_no_match (u : String)
    (hu : u ≠ "POST" ∧ u ≠ "PUT" ∧ u ≠ "DELETE") (g : AllowlistEntry → Bool) :
    (WRITE_ALLOWLIST.any fun e => e.method == u && g e) = false := by
  rw [← Bool.not_eq_true, List.any_eq_true]
  rintro ⟨e, he, hf⟩
  rw [Bool.and_eq_true, beq_iff_eq] at hf
  fin_cases he <;> simp_all

theorem any_match_empty_path (u : String) :
    (WRITE_ALLOWLIST.any fun e => e.method == u && matchPathPattern e.path "") =
      false := by
  rw [← Bool.not_eq_true, List.any_eq_true]
  rintro ⟨e, he, hf⟩
  rw [Bool.and_eq_true] at hf
  have h2 := hf.2
  fin_cases he <;>
    rw [matchPattern_false_of_len _ _ (by decide)] at h2 <;> simp at h2

theorem any_exact_empty_path (u : String) :
    (WRITE_ALLOWLIST.any fun e => e.method == u && e.path == "") = false := by
  rw [← Bool.not_eq_true, List.any_eq_true]
  rintro ⟨e, he, hf⟩
  rw [Bool.and_eq_true, beq_iff_eq, beq_iff_eq] at hf
  have h2 := hf.2
  fin_cases he <;> simp_all

/-- C1: `isAllowedRuntimeRequest(method, path)` is true iff the uppercased
method is GET or HEAD, or it is POST and the path ends with one of the
safe-read suffixes, or some `WRITE_ALLOWLIST` entry has that method and a
path pattern matching the path; otherwise false (deny-by-default). In
particular `POST /api/v2/logs/events/search` is allowed although no
allowlist entry exists for it. -/
theorem isAllowedRuntimeRequest_iff :
    (∀ m p, isAllowedRuntimeRequest m p = true ↔
      (jsToUpper m = "GET" ∨ jsToUpper m = "HEAD" ∨
        (jsToUpper m = "POST" ∧
          ∃ suf ∈ SAFE_POST_SUFFIXES, jsEndsWith p suf = true) ∨
        ∃ e ∈ WRITE_ALLOWLIST, e.method = jsToUpper m ∧
          matchPathPattern e.path p = true)) ∧
    isAllowedRuntimeRequest "POST" "/api/v2/logs/events/search" = true := by
  refine ⟨fun m p => ?_, by decide⟩
  rw [isAllowedRuntimeRequest, runtimeWith_eq]
  simp only [Bool.or_eq_true, List.any_eq_true, Bool.and_eq_true, beq_iff_eq]
  rw [read_contains_iff, isSafePost_iff]
  constructor
  · intro h
    rcases h with ((h | h) | h) | h
    · exact Or.inl h
    · exact Or.inr (Or.inl h)
    · exact Or.inr (Or.inr (Or.inl h))
    · obtain ⟨e, he, h1, h2⟩ := h
      exact Or.inr (Or.inr (Or.inr ⟨e, he, h1, h2⟩))
  · intro h
    rcases h with h | h | h | h
    · exact Or.inl (Or.inl (Or.inl h))
    · exact Or.inl (Or.inl (Or.inr h))
    · exact Or.inl (Or.inr h)
    · obtain ⟨e, he, h1, h2⟩ := h
      exact Or.inr ⟨e, he, h1, h2⟩

/-- C2: `isAllowedSpecEndpoint(method, path)` is true iff the uppercased
method is GET or HEAD, or it is POST and the path ends with a safe-read
suffix, or some `WRITE_ALLOWLIST` entry equals the method-path pair by
exact string equality; so the templated notebook path is kept at catalog
time while its request-time form is not. -/
theorem isAllowedSpecEndpoint_iff :
    (∀ m p, isAllowedSpecEndpoint m p = true ↔
      (jsToUpper m = "GET" ∨ jsToUpper m = "HEAD" ∨
        (jsToUpper m = "POST" ∧
          ∃ suf ∈ SAFE_POST_SUFFIXES, jsEndsWith p suf = true) ∨
        ∃ e ∈ WRITE_ALLOWLIST, e.method = jsToUpper m ∧ e.path = p)) ∧
    isAllowedSpecEndpoint "PUT" "/api/v1/notebooks/{notebook_id}" = true ∧
    isAllowedSpecEndpoint "PUT" "/api/v1/notebooks/123" = false := by
  refine ⟨fun m p => ?_, by decide, by decide⟩
  rw [isAllowedSpecEndpoint, specWith_eq]
  simp only [Bool.or_eq_true, List.any_eq_true, Bool.and_eq_true, beq_iff_eq]
  rw [read_contains_iff, isSafePost_iff]
  constructor
  · intro h
    rcases h with ((h | h) | h) | h
    · exact Or.inl h
    · exact Or.inr (Or.inl h)
    · exact Or.inr (Or.inr (Or.inl h))
    · obtain ⟨e, he, h1, h2⟩ := h
      exact Or.inr (Or.inr (Or.inr ⟨e, he, h1, h2⟩))
  · intro h
    rcases h with h | h | h | h
    · exact Or.inl (Or.inl (Or.inl h))
    · exact Or.inl (Or.inl (Or.inr h))
    · exact Or.inl (Or.inr h)
    · obtain ⟨e, he, h1, h2⟩ := h
      exact Or.inr ⟨e, he, h1, h2⟩

/-- C5: GET and HEAD, written in any letter case, are unconditionally
permitted by both policy functions for every path, including the empty
string. -/
theorem read_methods_always_allowed (m p : String)
    (h : jsToUpper m = "GET" ∨ jsToUpper m = "HEAD") :
    isAllowedSpecEndpoint m p = true ∧ isAllowedRuntimeRequest m p = true := by
  have hc : READ_METHODS.contains (jsToUpper m) = true := (read_contains_iff _).mpr h
  rw [isAllowedSpecEndpoint, isAllowedRuntimeRequest, specWith_eq,
    runtimeWith_eq, hc]
  simp

/-- C5 witness: lowercase `get` with the empty path is allowed by both
policy functions. -/
theorem read_methods_always_allowed_witness :
    isAllowedSpecEndpoint "get" "" = true ∧
    isAllowedRuntimeRequest "get" "" = true :=
  read_methods_always_allowed "get" "" (by decide)

/-- C7: malformed input is denied with no special validation — the empty
method string with any path, and any method whose uppercase form is neither
GET nor HEAD with the empty path, are rejected by both policy functions. -/
theorem malformed_input_denied (m q : String)
    (h : jsToUpper m ≠ "GET" ∧ jsToUpper m ≠ "HEAD") :
    isAllowedSpecEndpoint "" q = false ∧ isAllowedRuntimeRequest "" q = false ∧
    isAllowedSpecEndpoint m "" = false ∧
    isAllowedRuntimeRequest m "" = false := by
  have hcm : READ_METHODS.contains (jsToUpper m) = false := by
    rw [← Bool.not_eq_true, read_contains_iff]
    tauto
  have hce : READ_METHODS.contains (jsToUpper "") = false := by decide
  have hsp : isSafePost (jsToUpper "") q = false :=
    safePost_of_ne_post _ q (by decide)
  refine ⟨?_, ?_, ?_, ?_⟩
  · rw [isAllowedSpecEndpoint, specWith_eq, hce, hsp,
      any_method_no_match _ (by refine ⟨?_, ?_, ?_⟩ <;> decide) _]
    rfl
  · rw [isAllowedRuntimeRequest, runtimeWith_eq, hce, hsp,
      any_method_no_match _ (by refine ⟨?_, ?_, ?_⟩ <;> decide) _]
    rfl
  · rw [isAllowedSpecEndpoint, specWith_eq, hcm, safePost_empty_path,
      any_exact_empty_path]
    rfl
  · rw [isAllowedRuntimeRequest, runtimeWith_eq, hcm, safePost_empty_path,
      any_match_empty_path]
    rfl

/-- C7 witness: method `PATCH` with the empty path, and the empty method
with a concrete path, are all denied. -/
theorem malformed_input_denied_witness :
    isAllowedSpecEndpoint "" "/api/v1/monitor" = false ∧
    isAllowedRuntimeRequest "" "/api/v1/monitor" = false ∧
    isAllowedSpecEndpoint "PATCH" "" = false ∧
    isAllowedRuntimeRequest "PATCH" "" = false :=
  malformed_input_denied "PATCH" "/api/v1/monitor" (by refine ⟨?_, ?_⟩ <;> decide)

/-- C8: method comparison is case-insensitive — both policy functions give
the same decision on a method and on its uppercased form, for every path. -/
theorem method_case_insensitive (m p : String) :
    isAllowedSpecEndpoint m p = isAllowedSpecEndpoint (jsToUpper m) p ∧
    isAllowedRuntimeRequest m p = isAllowedRuntimeRequest (jsToUpper m) p := by
  unfold isAllowedSpecEndpoint isAllowedRuntimeRequest
    isAllowedSpecEndpointWith isAllowedRuntimeRequestWith
  rw [jsToUpper_idem]
  exact ⟨rfl, rfl⟩

/-- C9: the allowlist behaves as a set — replacing `WRITE_ALLOWLIST` with
any list having the same members (any permutation and/or duplication of its
entries) leaves both policy decisions unchanged for every method and path. -/
theorem allowlist_set_semantics (l : List AllowlistEntry)
    (h : ∀ e, e ∈ l ↔ e ∈ WRITE_ALLOWLIST) (m p : String) :
    isAllowedSpecEndpointWith l m p = isAllowedSpecEndpoint m p ∧
    isAllowedRuntimeRequestWith l m p = isAllowedRuntimeRequest m p := by
  rw [isAllowedSpecEndpoint, isAllowedRuntimeRequest, specWith_eq,
    specWith_eq, runtimeWith_eq, runtimeWith_eq,
    any_congr_mem l WRITE_ALLOWLIST h, any_congr_mem l WRITE_ALLOWLIST h]
  exact ⟨rfl, rfl⟩

/-- C9 witness: a reversed copy of the allowlist with a duplicated entry
gives the same decisions as the original on a sample method and path. -/
theorem allowlist_set_semantics_witness :
    isAllowedSpecEndpointWith
        [⟨"DELETE", "/api/v1/dashboard/{dashboard_id}"⟩,
         ⟨"PUT", "/api/v1/dashboard/{dashboard_id}"⟩,
         ⟨"POST", "/api/v1/dashboard"⟩,
         ⟨"DELETE", "/api/v1/notebooks/{notebook_id}"⟩,
         ⟨"PUT", "/api/v1/notebooks/{notebook_id}"⟩,
         ⟨"POST", "/api/v1/notebooks"⟩,
         ⟨"POST", "/api/v1/notebooks"⟩] "PUT" "/api/v1/notebooks/42" =
      isAllowedSpecEndpoint "PUT" "/api/v1/notebooks/42" ∧
    isAllowedRuntimeRequestWith
        [⟨"DELETE", "/api/v1/dashboard/{dashboard_id}"⟩,
         ⟨"PUT", "/api/v1/dashboard/{dashboard_id}"⟩,
         ⟨"POST", "/api/v1/dashboard"⟩,
         ⟨"DELETE", "/api/v1/notebooks/{notebook_id}"⟩,
         ⟨"PUT", "/api/v1/notebooks/{notebook_id}"⟩,
         ⟨"POST", "/api/v1/notebooks"⟩,
         ⟨"POST", "/api/v1/notebooks"⟩] "PUT" "/api/v1/notebooks/42" =
      isAllowedRuntimeRequest "PUT" "/api/v1/notebooks/42" :=
  allowlist_set_semantics _
    (by
      intro e
      simp [WRITE_ALLOWLIST, List.mem_cons]
      tauto)
    "PUT" "/api/v1/notebooks/42"

/-- C10: `matchPathPattern` is reflexive on every string, and consequently
every method-path pair accepted at catalog time — templated paths passed
verbatim included — is also accepted by the runtime guard. -/
theorem spec_allowed_implies_runtime_allowed (m p q : String)
    (h : isAllowedSpecEndpoint m p = true) :
    matchPathPattern q q = true ∧ isAllowedRuntimeRequest m p = true := by
  refine ⟨matchPathPattern_self q, ?_⟩
  rw [isAllowedSpecEndpoint, specWith_eq] at h
  rw [isAllowedRuntimeRequest, runtimeWith_eq]
  simp only [Bool.or_eq_true] at h ⊢
  rcases h with h | h
  · exact Or.inl h
  · right
    rw [List.any_eq_true] at h ⊢
    obtain ⟨e, he, hf⟩ := h
    rw [Bool.and_eq_true] at hf
    refine ⟨e, he, ?_⟩
    rw [Bool.and_eq_true]
    refine ⟨hf.1, ?_⟩
    have hp : e.path = p := by
      have := hf.2
      rwa [beq_iff_eq] at this
    rw [hp]
    exact matchPathPattern_self p

/-- C10 witness: the templated notebook path accepted at catalog time is
accepted verbatim by the runtime guard, and pattern matching is reflexive
on a sample templated path. -/
theorem spec_allowed_implies_runtime_allowed_witness :
    matchPathPattern "/x/{y}" "/x/{y}" = true ∧
    isAllowedRuntimeRequest "PUT" "/api/v1/notebooks/{notebook_id}" = true :=
  spec_allowed_implies_runtime_allowed "PUT" "/api/v1/notebooks/{notebook_id}"
    "/x/{y}" (by decide)

/-- C3: `matchPathPattern(template, concrete)` is true iff splitting both
on slash gives the same number of segments and, at every position, either
the template segment starts with an opening brace and ends with a closing
brace and the concrete segment is non-empty, or the two segments are
byte-for-byte equal; together with the four example evaluations from the
spec. -/
theorem matchPathPattern_characterization :
    (∀ t c, matchPathPattern t c = true ↔
      ((pathSegs t).length = (pathSegs c).length ∧
        ∀ i (h1 : i < (pathSegs t).length) (h2 : i < (pathSegs c).length),
          (jsStartsWith ((pathSegs t).get ⟨i, h1⟩) openBrace = true ∧
            jsEndsWith ((pathSegs t).get ⟨i, h1⟩) closeBrace = true ∧
            1 ≤ ((pathSegs c).get ⟨i, h2⟩).length) ∨
          (pathSegs t).get ⟨i, h1⟩ = (pathSegs c).get ⟨i, h2⟩)) ∧
    matchPathPattern "/a/{id}/b" "/a/123/b" = true ∧
    matchPathPattern "/a/{id}/b" "/a//b" = false ∧
    matchPathPattern "/a/{id}" "/a/123/extra" = false ∧
    matchPathPattern "/a/b" "/a/b" = true := by
  refine ⟨fun t c => ?_, by decide, by decide, by decide, by decide⟩
  rw [matchPathPattern_true_iff]
  constructor
  · rintro ⟨hlen, hpt⟩
    refine ⟨hlen, fun i h1 h2 => ?_⟩
    have h := hpt i h1 h2
    rw [segMatches_iff] at h
    exact h
  · rintro ⟨hlen, hpt⟩
    refine ⟨hlen, fun i h1 h2 => ?_⟩
    rw [segMatches_iff]
    exact hpt i h1 h2

theorem strContains_of_middle (s sub : String) (h : sub.data <:+: s.data) :
    strContains s sub = true := by
  unfold strContains
  rw [List.any_eq_true]
  obtain ⟨pre, post, hsplit⟩ := h
  refine ⟨sub.data ++ post, ?_, ?_⟩
  · rw [List.mem_tails]
    exact ⟨pre, by rw [← List.append_assoc, hsplit]⟩
  · rw [ List.isPrefixOf_iff_prefix]
    exact ⟨post, rfl⟩

theorem data_blockedMessage (m p : String) :
    (blockedMessage m p).data =
      "Blocked: ".data ++ m.data ++ " ".data ++ p.data ++
        " is not in the write allowlist. Only GET/HEAD and specific notebook/dashboard operations are permitted.".data := by
  unfold blockedMessage
  rw [data_append, data_append, data_append, data_append]

theorem blockedMessage_contains_method (m p : String) :
    strContains (blockedMessage m p) m = true := by
  apply strContains_of_middle
  rw [data_blockedMessage]
  refine ⟨"Blocked: ".data,
    " ".data ++ p.data ++
      " is not in the write allowlist. Only GET/HEAD and specific notebook/dashboard operations are permitted.".data, ?_⟩
  simp [List.append_assoc]

theorem blockedMessage_contains_path (m p : String) :
    strContains (blockedMessage m p) p = true := by
  apply strContains_of_middle
  rw [data_blockedMessage]
  refine ⟨"Blocked: ".data ++ m.data ++ " ".data,
    " is not in the write allowlist. Only GET/HEAD and specific notebook/dashboard operations are permitted.".data, ?_⟩
  simp [List.append_assoc]

theorem blockedMessage_contains_allowlist (m p : String) :
    strContains (blockedMessage m p) "allowlist" = true := by
  apply strContains_of_middle
  rw [data_blockedMessage]
  have hsplit :
      " is not in the write allowlist. Only GET/HEAD and specific notebook/dashboard operations are permitted.".data =
        " is not in the write ".data ++ "allowlist".data ++
          ". Only GET/HEAD and specific notebook/dashboard operations are permitted.".data := by
    decide
  rw [hsplit]
  refine ⟨"Blocked: ".data ++ m.data ++ " ".data ++ p.data ++
    " is not in the write ".data,
    ". Only GET/HEAD and specific notebook/dashboard operations are permitted.".data, ?_⟩
  simp [List.append_assoc]

/-- C6: whenever `isAllowedRuntimeRequest` returns false, `datadog.request`
throws the blocked error — whose message contains the method, the path and
the word allowlist — before constructing the request URL or performing any
network I/O, and no fetch outcome is possible for that call. -/
theorem datadogRequest_blocked_on_denial (config : DatadogConfig)
    (m p : String) (h : isAllowedRuntimeRequest m p = false) :
    datadogRequest config m p = RequestResult.blocked (blockedMessage m p) ∧
    strContains (blockedMessage m p) m = true ∧
    strContains (blockedMessage m p) p = true ∧
    strContains (blockedMessage m p) "allowlist" = true ∧
    ∀ u, datadogRequest config m p ≠ RequestResult.fetched u := by
  have hb : datadogRequest config m p =
      RequestResult.blocked (blockedMessage m p) := by
    simp [datadogRequest, h]
  refine ⟨hb, blockedMessage_contains_method m p,
    blockedMessage_contains_path m p,
    blockedMessage_contains_allowlist m p, fun u hu => ?_⟩
  rw [hb] at hu
  simp at hu

/-- C6 witness: a denied `PATCH` call is blocked with the descriptive
message and never reaches the fetch. -/
theorem datadogRequest_blocked_on_denial_witness :
    datadogRequest ⟨"k", "a", "datadoghq.com"⟩ "PATCH" "/api/v2/incidents/7" =
      RequestResult.blocked (blockedMessage "PATCH" "/api/v2/incidents/7") ∧
    strContains (blockedMessage "PATCH" "/api/v2/incidents/7") "PATCH" = true ∧
    strContains (blockedMessage "PATCH" "/api/v2/incidents/7")
      "/api/v2/incidents/7" = true ∧
    strContains (blockedMessage "PATCH" "/api/v2/incidents/7")
      "allowlist" = true ∧
    ∀ u, datadogRequest ⟨"k", "a", "datadoghq.com"⟩ "PATCH"
      "/api/v2/incidents/7" ≠ RequestResult.fetched u :=
  datadogRequest_blocked_on_denial ⟨"k", "a", "datadoghq.com"⟩ "PATCH"
    "/api/v2/incidents/7" (by decide)

theorem safePost_template_false (u t : String)
    (h : (SAFE_POST_SUFFIXES.any fun suffix => jsEndsWith t suffix) = false) :
    isSafePost u t = false := by
  unfold isSafePost
  rw [h]
  exact Bool.and_false _

theorem runtime_any_notebooks (u p : String)
    (hm : matchPathPattern "/api/v1/notebooks" p = true) :
    (WRITE_ALLOWLIST.any fun e => e.method == u && matchPathPattern e.path p) =
      (WRITE_ALLOWLIST.any fun e => e.method == u &&
        e.path == "/api/v1/notebooks") := by
  have hlen : (pathSegs p).length = 4 := by
    have h := matchPattern_len _ _ hm
    rw [show (pathSegs "/api/v1/notebooks").length = 4 from by decide] at h
    exact h.symm
  have h5 : ∀ t2 : String, (pathSegs t2).length = 5 →
      matchPathPattern t2 p = false :=
    fun t2 ht2 => matchPattern_false_of_len _ _ (by rw [ht2, hlen]; decide)
  have hf1 : matchPathPattern "/api/v1/notebooks/{notebook_id}" p = false :=
    h5 _ (by decide)
  have hf2 : matchPathPattern "/api/v1/dashboard/{dashboard_id}" p = false :=
    h5 _ (by decide)
  have h3p : 3 < (pathSegs p).length := by rw [hlen]; decide
  have hx : (pathSegs p).get ⟨3, h3p⟩ = "notebooks" := by
    have hseg := matchPattern_seg _ _ hm 3 (by decide) h3p
    rw [segMatches_lit_iff _ _ (by decide)] at hseg
    rw [← hseg]
    decide
  have hf3 : matchPathPattern "/api/v1/dashboard" p = false := by
    apply matchPattern_false_of_seg _ _ 3 (by decide) h3p
    rw [hx]
    decide
  simp [WRITE_ALLOWLIST, hm, hf1, hf2, hf3]

theorem runtime_any_notebooks_id (u p : String)
    (hm : matchPathPattern "/api/v1/notebooks/{notebook_id}" p = true) :
    (WRITE_ALLOWLIST.any fun e => e.method == u && matchPathPattern e.path p) =
      (WRITE_ALLOWLIST.any fun e => e.method == u &&
        e.path == "/api/v1/notebooks/{notebook_id}") := by
  have hlen : (pathSegs p).length = 5 := by
    have h := matchPattern_len _ _ hm
    rw [show (pathSegs "/api/v1/notebooks/{notebook_id}").length = 5 from
      by decide] at h
    exact h.symm
  have h4 : ∀ t2 : String, (pathSegs t2).length = 4 →
      matchPathPattern t2 p = false :=
    fun t2 ht2 => matchPattern_false_of_len _ _ (by rw [ht2, hlen]; decide)
  have hf1 : matchPathPattern "/api/v1/notebooks" p = false := h4 _ (by decide)
  have hf2 : matchPathPattern "/api/v1/dashboard" p = false := h4 _ (by decide)
  have h3p : 3 < (pathSegs p).length := by rw [hlen]; decide
  have hx : (pathSegs p).get ⟨3, h3p⟩ = "notebooks" := by
    have hseg := matchPattern_seg _ _ hm 3 (by decide) h3p
    rw [segMatches_lit_iff _ _ (by decide)] at hseg
    rw [← hseg]
    decide
  have hf3 : matchPathPattern "/api/v1/dashboard/{dashboard_id}" p = false := by
    apply matchPattern_false_of_seg _ _ 3 (by decide) h3p
    rw [hx]
    decide
  simp [WRITE_ALLOWLIST, hm, hf1, hf2, hf3]

theorem runtime_any_dashboard (u p : String)
    (hm : matchPathPattern "/api/v1/dashboard" p = true) :
    (WRITE_ALLOWLIST.any fun e => e.method == u && matchPathPattern e.path p) =
      (WRITE_ALLOWLIST.any fun e => e.method == u &&
        e.path == "/api/v1/dashboard") := by
  have hlen : (pathSegs p).length = 4 := by
    have h := matchPattern_len _ _ hm
    rw [show (pathSegs "/api/v1/dashboard").length = 4 from by decide] at h
    exact h.symm
  have h5 : ∀ t2 : String, (pathSegs t2).length = 5 →
      matchPathPattern t2 p = false :=
    fun t2 ht2 => matchPattern_false_of_len _ _ (by rw [ht2, hlen]; decide)
  have hf1 : matchPathPattern "/api/v1/notebooks/{notebook_id}" p = false :=
    h5 _ (by decide)
  have hf2 : matchPathPattern "/api/v1/dashboard/{dashboard_id}" p = false :=
    h5 _ (by decide)
  have h3p : 3 < (pathSegs p).length := by rw [hlen]; decide
  have hx : (pathSegs p).get ⟨3, h3p⟩ = "dashboard" := by
    have hseg := matchPattern_seg _ _ hm 3 (by decide) h3p
    rw [segMatches_lit_iff _ _ (by decide)] at hseg
    rw [← hseg]
    decide
  have hf3 : matchPathPattern "/api/v1/notebooks" p = false := by
    apply matchPattern_false_of_seg _ _ 3 (by decide) h3p
    rw [hx]
    decide
  simp [WRITE_ALLOWLIST, hm, hf1, hf2, hf3]

theorem runtime_any_dashboard_id (u p : String)
    (hm : matchPathPattern "/api/v1/dashboard/{dashboard_id}" p = true) :
    (WRITE_ALLOWLIST.any fun e => e.method == u && matchPathPattern e.path p) =
      (WRITE_ALLOWLIST.any fun e => e.method == u &&
        e.path == "/api/v1/dashboard/{dashboard_id}") := by
  have hlen : (pathSegs p).length = 5 := by
    have h := matchPattern_len _ _ hm
    rw [show (pathSegs "/api/v1/dashboard/{dashboard_id}").length = 5 from
      by decide] at h
    exact h.symm
  have h4 : ∀ t2 : String, (pathSegs t2).length = 4 →
      matchPathPattern t2 p = false :=
    fun t2 ht2 => matchPattern_false_of_len _ _ (by rw [ht2, hlen]; decide)
  have hf1 : matchPathPattern "/api/v1/notebooks" p = false := h4 _ (by decide)
  have hf2 : matchPathPattern "/api/v1/dashboard" p = false := h4 _ (by decide)
  have h3p : 3 < (pathSegs p).length := by rw [hlen]; decide
  have hx : (pathSegs p).get ⟨3, h3p⟩ = "dashboard" := by
    have hseg := matchPattern_seg _ _ hm 3 (by decide) h3p
    rw [segMatches_lit_iff _ _ (by decide)] at hseg
    rw [← hseg]
    decide
  have hf3 : matchPathPattern "/api/v1/notebooks/{notebook_id}" p = false := by
    apply matchPattern_false_of_seg _ _ 3 (by decide) h3p
    rw [hx]
    decide
  simp [WRITE_ALLOWLIST, hm, hf1, hf2, hf3]

/-- C4 counterexample: `/api/v1/notebooks/{notebook_id}` is an allowlisted
template and `/api/v1/notebooks/search` is one of its substitution
instances (parameter value `search`), yet with method `POST` the runtime
guard allows the instance while the catalog-time policy denies the
template — the claimed equality fails at this input. -/
theorem catalog_runtime_consistency_counterexample :
    (∃ e ∈ WRITE_ALLOWLIST, e.path = "/api/v1/notebooks/{notebook_id}") ∧
    IsSubstInstance "/api/v1/notebooks/{notebook_id}"
      "/api/v1/notebooks/search" ∧
    isAllowedRuntimeRequest "POST" "/api/v1/notebooks/search" ≠
      isAllowedSpecEndpoint "POST" "/api/v1/notebooks/{notebook_id}" ∧
    isAllowedRuntimeRequest "POST" "/api/v1/notebooks/search" = true ∧
    isAllowedSpecEndpoint "POST" "/api/v1/notebooks/{notebook_id}" = false := by
  refine ⟨by decide,
    ⟨["", "api", "v1", "notebooks", "search"], by decide, by decide, by decide⟩,
    by decide, by decide, by decide⟩

/-- C4 (amended): for every allowlisted template `t`, every method `m` and
every concrete path `p` generated by substituting parameter values into
`t`, the decisions agree — `isAllowedRuntimeRequest(m, p) =
isAllowedSpecEndpoint(m, t)` — provided the substituted values do not make
`p` end in a safe-POST suffix that `t` itself lacks (without this proviso
the counterexample above shows the equality fails). -/
theorem catalog_runtime_consistency_amended (t m p : String)
    (ht : ∃ e ∈ WRITE_ALLOWLIST, e.path = t)
    (hsub : IsSubstInstance t p)
    (hsafe : isSafePost (jsToUpper m) p = true →
      isSafePost (jsToUpper m) t = true) :
    isAllowedRuntimeRequest m p = isAllowedSpecEndpoint m t := by
  rw [isSubstInstance_iff] at hsub
  rw [isAllowedRuntimeRequest, isAllowedSpecEndpoint, runtimeWith_eq,
    specWith_eq]
  by_cases hread : READ_METHODS.contains (jsToUpper m) = true
  · rw [hread]
    simp
  · rw [Bool.not_eq_true] at hread
    rw [hread]
    simp only [Bool.false_or]
    obtain ⟨e, he, hpath⟩ := ht
    have hsp : ∀ tl : String,
        (SAFE_POST_SUFFIXES.any fun suffix => jsEndsWith tl suffix) = false →
        t = tl → isSafePost (jsToUpper m) p = false := by
      intro tl hns htl
      cases hq : isSafePost (jsToUpper m) p
      · rfl
      · have h1 := hsafe hq
        rw [htl, safePost_template_false _ _ hns] at h1
        simp at h1
    fin_cases he
    · have htl : t = "/api/v1/notebooks" := by simpa using hpath.symm
      rw [hsp _ (by decide) htl, htl,
        safePost_template_false (jsToUpper m) _ (by decide)]
      simp only [Bool.false_or]
      rw [htl] at hsub
      exact runtime_any_notebooks _ _ hsub
    · have htl : t = "/api/v1/notebooks/{notebook_id}" := by
        simpa using hpath.symm
      rw [hsp _ (by decide) htl, htl,
        safePost_template_false (jsToUpper m) _ (by decide)]
      simp only [Bool.false_or]
      rw [htl] at hsub
      exact runtime_any_notebooks_id _ _ hsub
    · have htl : t = "/api/v1/notebooks/{notebook_id}" := by
        simpa using hpath.symm
      rw [hsp _ (by decide) htl, htl,
        safePost_template_false (jsToUpper m) _ (by decide)]
      simp only [Bool.false_or]
      rw [htl] at hsub
      exact runtime_any_notebooks_id _ _ hsub
    · have htl : t = "/api/v1/dashboard" := by simpa using hpath.symm
      rw [hsp _ (by decide) htl, htl,
        safePost_template_false (jsToUpper m) _ (by decide)]
      simp only [Bool.false_or]
      rw [htl] at hsub
      exact runtime_any_dashboard _ _ hsub
    · have htl : t = "/api/v1/dashboard/{dashboard_id}" := by
        simpa using hpath.symm
      rw [hsp _ (by decide) htl, htl,
        safePost_template_false (jsToUpper m) _ (by decide)]
      simp only [Bool.false_or]
      rw [htl] at hsub
      exact runtime_any_dashboard_id _ _ hsub
    · have htl : t = "/api/v1/dashboard/{dashboard_id}" := by
        simpa using hpath.symm
      rw [hsp _ (by decide) htl, htl,
        safePost_template_false (jsToUpper m) _ (by decide)]
      simp only [Bool.false_or]
      rw [htl] at hsub
      exact runtime_any_dashboard_id _ _ hsub

/-- C4 (amended) witness: `DELETE` on the substitution instance
`/api/v1/notebooks/99` of the allowlisted notebook template agrees with the
catalog-time decision on the template itself. -/
theorem catalog_runtime_consistency_amended_witness :
    isAllowedRuntimeRequest "DELETE" "/api/v1/notebooks/99" =
      isAllowedSpecEndpoint "DELETE" "/api/v1/notebooks/{notebook_id}" :=
  catalog_runtime_consistency_amended "/api/v1/notebooks/{notebook_id}"
    "DELETE" "/api/v1/notebooks/99" (by decide)
    ⟨["", "api", "v1", "notebooks", "99"], by decide, by decide, by decide⟩
    (by decide)

